import Mathlib

/-!
Verification development for the fossie catalog query service
(src/main.go and src/database/01_schema.sql).

The handler assembles one SQL query over the `apps` table (optionally
filtered by a keyword condition and a tag condition), fetches each
selected row's tags from `app_tags`, sorts the rows in memory by the
`sort` parameter, and renders them.  The definitions below embed the
row data, the semantics of the generated SQL predicates, the in-memory
sort, the error propagation of the row-scanning loops, and the helper
`GenerateHandle`.
-/

/-- A row of the `apps` table, with every column the handler's SQL
references.  `maintainer` and `country` are searched by the keyword
condition even though the SELECT list does not fetch them. -/
structure AppRow where
  id : String
  name : String
  description : String
  source_url : String
  license : String
  language : String
  maintainer : String
  country : String
  stars : Int
  created_at : String
  first_commit : String
  last_commit : String
deriving DecidableEq

/-- The relational store: the `apps` table and the `app_tags`
association table, whose rows are (app_id, tag) pairs. -/
structure Store where
  apps : List AppRow
  app_tags : List (String × String)
deriving DecidableEq

/-- The record the handler scans each selected row into
(struct `App`, src/main.go lines 22-33). -/
structure App where
  Name : String
  Description : String
  SourceURL : String
  License : String
  Language : String
  Tags : List String
  Stars : Int
  CreatedAt : String
  FirstCommit : String
  LastCommit : String
deriving DecidableEq

/-- SQL LIKE pattern matching over character lists: `%` matches any
sequence, `_` matches exactly one character, and a backslash escapes
the following pattern character (PostgreSQL's default escape).  The
`%` case succeeds when the rest of the pattern matches some suffix of
the string. -/
def like : List Char → List Char → Bool
  | [], s => s.isEmpty
  | c :: p, s =>
    if c = '%' then
      s.tails.any (fun t => like p t)
    else if c = '\\' then
      match p, s with
      | e :: p2, d :: s2 => e == d && like p2 s2
      | _, _ => false
    else if c = '_' then
      match s with
      | [] => false
      | _ :: s2 => like p s2
    else
      match s with
      | [] => false
      | d :: s2 => c == d && like p s2

/-- `col ILIKE '%' || kw || '%'`, the predicate text built at
src/main.go lines 135-141: case-insensitive LIKE with the keyword
value wrapped in `%` wildcards. -/
def ilikeSub (kw s : String) : Bool :=
  like ('%' :: (kw.data.map Char.toLower ++ ['%'])) (s.data.map Char.toLower)

/-- The rows `SELECT tag FROM app_tags WHERE app_id = $1` returns
(src/main.go line 185), in table order. -/
def tagsFor (st : Store) (appId : String) : List String :=
  (st.app_tags.filter (fun r => r.1 == appId)).map (fun r => r.2)

/-- The keyword condition assembled at src/main.go lines 134-146: the
keyword matches one of the six text columns by ILIKE, or the row id is
among the app_ids carrying a tag that matches by ILIKE. -/
def kwMatch (st : Store) (kw : String) (r : AppRow) : Bool :=
  ilikeSub kw r.name || ilikeSub kw r.description || ilikeSub kw r.maintainer ||
  ilikeSub kw r.license || ilikeSub kw r.country || ilikeSub kw r.language ||
  st.app_tags.any (fun p => p.1 == r.id && ilikeSub kw p.2)

/-- Go's strings.Split with a single-comma separator. -/
def splitComma : List Char → List (List Char)
  | [] => [[]]
  | c :: rest =>
    if c = ',' then [] :: splitComma rest
    else
      match splitComma rest with
      | [] => [[c]]
      | g :: gs => (c :: g) :: gs

/-- Go's strings.TrimSpace: leading and trailing whitespace removed. -/
def trimSpace (l : List Char) : List Char :=
  ((l.dropWhile Char.isWhitespace).reverse.dropWhile Char.isWhitespace).reverse

/-- src/main.go lines 124-127: the requested tag list is empty when
`tagFilter` is empty, and otherwise the comma-split segments; each
segment is trimmed when bound as a query argument (line 152). -/
def parseTags (tagFilter : String) : List String :=
  if tagFilter = "" then []
  else (splitComma tagFilter.data).map (fun g => String.mk (trimSpace g))

/-- The tag condition assembled at src/main.go lines 149-163:
`id IN (SELECT app_id FROM app_tags WHERE tag IN (req) GROUP BY app_id
HAVING COUNT(DISTINCT tag) = n)`, where `n` is the number of requested
segments (`len(tags)`, duplicates counted). -/
def tagMatch (st : Store) (req : List String) (r : AppRow) : Bool :=
  ((st.app_tags.filter (fun p => p.1 == r.id && req.contains p.2)).map
      (fun p => p.2)).dedup.length == req.length

/-- The assembled WHERE clause (src/main.go lines 134-167): each
condition is added only when its filter is present, and the present
conditions are joined by AND. -/
def rowPasses (st : Store) (kw : String) (req : List String) (r : AppRow) : Bool :=
  (kw == "" || kwMatch st kw r) && (req.isEmpty || tagMatch st req r)

/-- Scanning one selected row into an `App` and attaching the tag list
fetched for its id (src/main.go lines 172-201). -/
def toApp (st : Store) (r : AppRow) : App :=
  { Name := r.name, Description := r.description, SourceURL := r.source_url,
    License := r.license, Language := r.language, Tags := tagsFor st r.id,
    Stars := r.stars, CreatedAt := r.created_at, FirstCommit := r.first_commit,
    LastCommit := r.last_commit }

/-- The strict comparator the switch at src/main.go lines 206-219
passes to sort.Slice: `goLess p a b` holds when element `a` must sort
strictly before element `b` under sort key `p`.  Every key other than
the five listed ones falls into the default alphabetical branch. -/
def goLess (sortParam : String) (a b : App) : Bool :=
  if sortParam = "stars" then decide (b.Stars < a.Stars)
  else if sortParam = "activity" then decide (b.LastCommit < a.LastCommit)
  else if sortParam = "recently_added" then decide (b.CreatedAt < a.CreatedAt)
  else if sortParam = "age_asc" then decide (a.FirstCommit < b.FirstCommit)
  else if sortParam = "age_desc" then decide (b.FirstCommit < a.FirstCommit)
  else decide (a.Name < b.Name)

/-- Insertion of `a` into `l` before the first element `b` with
`le a b`. -/
def insertLe {α : Type} (le : α → α → Bool) (a : α) : List α → List α
  | [] => [a]
  | b :: l => if le a b then a :: b :: l else b :: insertLe le a l

/-- Comparison sort by the boolean relation `le`. -/
def sortLe {α : Type} (le : α → α → Bool) : List α → List α
  | [] => []
  | a :: l => insertLe le a (sortLe le l)

/-- The in-memory sort of the scanned rows: a comparison sort placing
`a` no later than `b` exactly when the sort.Slice comparator does not
order `b` strictly before `a`.  (Go's sort is unstable; the order
among ties is unspecified in the source, and this model fixes one.) -/
def sortApps (sortParam : String) (apps : List App) : List App :=
  sortLe (fun a b => ! goLess sortParam b a) apps

/-- The success path of the request handler (src/main.go
lines 121-219): select the rows passing the WHERE clause, scan each
with its tags, then sort by the `sort` parameter. -/
def handleQuery (st : Store) (keyword tagFilter sortParam : String) : List App :=
  sortApps sortParam
    ((st.apps.filter (rowPasses st keyword (parseTags tagFilter))).map (toApp st))

/-- The SELECT list and FROM clause of the main query
(src/main.go line 129). -/
def baseQuery : String :=
  "SELECT id, name, description, source_url, license, language, stars, created_at, first_commit, last_commit FROM apps"

/-- A positional query argument, `fmt.Sprintf` of `$%d`. -/
def placeholderSQL (i : Nat) : String := "$" ++ toString i

/-- The keyword condition text (src/main.go lines 135-144): the seven
ILIKE alternatives joined by OR and wrapped in parentheses, all bound
to argument index `i`. -/
def kwCondSQL (i : Nat) : String :=
  "(" ++ String.intercalate " OR "
    [ "name ILIKE '%' || " ++ placeholderSQL i ++ " || '%'",
      "description ILIKE '%' || " ++ placeholderSQL i ++ " || '%'",
      "maintainer ILIKE '%' || " ++ placeholderSQL i ++ " || '%'",
      "license ILIKE '%' || " ++ placeholderSQL i ++ " || '%'",
      "country ILIKE '%' || " ++ placeholderSQL i ++ " || '%'",
      "language ILIKE '%' || " ++ placeholderSQL i ++ " || '%'",
      "id IN (SELECT app_id FROM app_tags WHERE tag ILIKE '%' || " ++
        placeholderSQL i ++ " || '%')" ] ++ ")"

/-- The tag condition text (src/main.go lines 150-162), with `start`
the first tag argument index and `n` the number of tag segments; the
embedded whitespace reproduces the Go raw string literal. -/
def tagSubSQL (start n : Nat) : String :=
  "id IN (\n\t\t\t  SELECT app_id FROM app_tags\n\t\t\t  WHERE tag IN (" ++
  String.intercalate "," ((List.range n).map (fun k => placeholderSQL (start + k))) ++
  ")\n\t\t\t  GROUP BY app_id\n\t\t\t  HAVING COUNT(DISTINCT tag) = " ++
  toString n ++ "\n\t\t\t)"

/-- The WHERE clause appended when at least one condition is present
(src/main.go lines 165-167); empty otherwise. -/
def whereSQL (keyword tagFilter : String) : String :=
  let conds :=
    (if keyword = "" then [] else [kwCondSQL 1]) ++
    (if (parseTags tagFilter).length > 0 then
        [tagSubSQL (if keyword = "" then 1 else 2) (parseTags tagFilter).length]
      else [])
  if conds.length > 0 then " WHERE " ++ String.intercalate " AND " conds else ""

/-- The full text of the main query issued at src/main.go line 169. -/
def mainQueryText (keyword tagFilter : String) : String :=
  baseQuery ++ whereSQL keyword tagFilter

/-- The text of the per-entry tag query issued at src/main.go
line 185. -/
def tagQueryText : String := "SELECT tag FROM app_tags WHERE app_id = $1"

/-- A result stream as database/sql presents it to the
`for rows.Next()` pattern the handler uses: `rows` holds the Scan
outcome of each row Next delivered, and `streamErr` is a store failure
that truncated the stream after those rows.  On such a failure Next
returns false exactly as at a normal end of the result set; the
failure is reported only by the Err() method, which src/main.go never
calls. -/
structure RowStream (ρ : Type) where
  rows : List ρ
  streamErr : Option String
deriving DecidableEq

/-- The store as seen through database/sql when failures are possible:
each query call either fails outright or yields a row stream, whose
individual Scan calls may fail and which may itself have been
truncated by a store failure mid-iteration. -/
structure FStore where
  runMainQuery : Except String (RowStream (Except String (String × App)))
  runTagQuery : String → Except String (RowStream (Except String String))

/-- The inner loop over tag rows (src/main.go lines 192-198): the
first Scan failure aborts, otherwise the scanned tags are collected in
order. -/
def scanTagRows : List (Except String String) → Except String (List String)
  | [] => Except.ok []
  | Except.error e :: _ => Except.error e
  | Except.ok t :: rest => (scanTagRows rest).map (fun ts => t :: ts)

/-- The outer loop over result rows (src/main.go lines 171-201): the
first row-scan failure, tag-query failure or tag-row-scan failure
aborts the request; otherwise each row becomes an `App` carrying its
scanned tag list.  The loop consumes only the delivered rows of each
tag stream: neither `streamErr` is ever consulted, because the code
checks no Err() method. -/
def buildApps (fs : FStore) : List (Except String (String × App)) → Except String (List App)
  | [] => Except.ok []
  | Except.error e :: _ => Except.error e
  | Except.ok (id, a) :: rest =>
    match fs.runTagQuery id with
    | Except.error e => Except.error e
    | Except.ok tagStream =>
      match scanTagRows tagStream.rows with
      | Except.error e => Except.error e
      | Except.ok tagList =>
        match buildApps fs rest with
        | Except.error e => Except.error e
        | Except.ok apps => Except.ok ({ a with Tags := tagList } :: apps)

/-- The handler's outcome: the rendered page over the app list, or the
HTTP 500 response carrying only the error text (the `c.String` calls
at src/main.go lines 171, 176, 188 and 195 followed by `return`). -/
inductive Response where
  | page (apps : List App) : Response
  | queryFailed (msg : String) : Response
deriving DecidableEq

/-- The request handler around the fallible store: a failure returned
by the query call or by a Scan aborts with `queryFailed`; otherwise
the sorted list over the delivered rows is rendered.  The main
stream's `streamErr` is never consulted (src/main.go checks no Err()
method), so a stream truncated by a store failure is processed like a
complete one.  The handler is a total function: no failure terminates
the process. -/
def handleFallible (fs : FStore) (sortParam : String) : Response :=
  match fs.runMainQuery with
  | Except.error e => Response.queryFailed e
  | Except.ok stream =>
    match buildApps fs stream.rows with
    | Except.error e => Response.queryFailed e
    | Except.ok apps => Response.page (sortApps sortParam apps)

/-- One delivered row on which the handler's decoding fails: the row's
own Scan fails, its tag query call fails, or one of its delivered tag
rows fails to scan. -/
def rowFailure (fs : FStore) (row : Except String (String × App)) : Prop :=
  (∃ e, row = Except.error e) ∨
  (∃ appId a, row = Except.ok (appId, a) ∧
    ((∃ e, fs.runTagQuery appId = Except.error e) ∨
      (∃ ts, fs.runTagQuery appId = Except.ok ts ∧
        ∃ tr ∈ ts.rows, ∃ e, tr = Except.error e)))

/-- One non-overlapping scan of the regular expression
`([a-z0-9])([A-Z])` whose replacement template emits the two captured
groups unchanged (src/main.go lines 54-55): every match is replaced by
itself, and scanning resumes after the match. -/
def camelStep : List Char → List Char
  | [] => []
  | [c] => [c]
  | c1 :: c2 :: rest =>
    if (c1.isLower || c1.isDigit) && c2.isUpper then c1 :: c2 :: camelStep rest
    else c1 :: camelStep (c2 :: rest)

/-- Go's strings.ReplaceAll with a single-character pattern and a
single-character replacement rewrites each occurrence independently. -/
def replaceChar (old new : Char) (l : List Char) : List Char :=
  l.map (fun c => if c = old then new else c)

/-- src/main.go lines 49-60: dots, spaces and underscores become
dashes, the camel-case regex pass rewrites each match to itself, and
the result is lowercased. -/
def GenerateHandle (name : String) : String :=
  let h1 := replaceChar '.' '-' name.data
  let h2 := replaceChar ' ' '-' h1
  let h3 := replaceChar '_' '-' h2
  let h4 := camelStep h3
  String.mk (h4.map Char.toLower)

/-- A pattern character without special meaning for LIKE. -/
def PlainChar (c : Char) : Prop := c ≠ '%' ∧ c ≠ '_' ∧ c ≠ '\\'

instance (c : Char) : Decidable (PlainChar c) := by
  unfold PlainChar
  infer_instance

/-- Modelled from the spec wording for the keyword filter: the keyword
appears case-insensitively as a contiguous substring of the field. -/
def containsCI (kw s : String) : Bool :=
  decide ((kw.data.map Char.toLower) <:+: (s.data.map Char.toLower))

/-- Modelled from the spec wording for the keyword filter: the keyword
appears case-insensitively in the name, description, maintainer,
license, country or language, or in one of the entry's tags. -/
def specKwMatch (st : Store) (kw : String) (r : AppRow) : Bool :=
  containsCI kw r.name || containsCI kw r.description || containsCI kw r.maintainer ||
  containsCI kw r.license || containsCI kw r.country || containsCI kw r.language ||
  (tagsFor st r.id).any (fun t => containsCI kw t)

/-- Modelled from the spec wording for the tag filter: the entry's tag
set contains every requested tag (superset match). -/
def specTagSuperset (st : Store) (req : List String) (r : AppRow) : Bool :=
  req.all (fun t => (tagsFor st r.id).contains t)

/-- A concrete catalog entry named "a" with id "1", used by the worked
examples below. -/
def rowX : AppRow :=
  { id := "1", name := "a", description := "", source_url := "", license := "",
    language := "", maintainer := "", country := "", stars := 0,
    created_at := "", first_commit := "", last_commit := "" }

/-- The entry `rowX` carrying the single tag "x". -/
def storeX : Store := { apps := [rowX], app_tags := [("1", "x")] }

/-- The entry `rowX` with no tags at all. -/
def storeU : Store := { apps := [rowX], app_tags := [] }

/-- The entry `rowX` carrying the tags "x" and "y". -/
def storeY : Store := { apps := [rowX], app_tags := [("1", "x"), ("1", "y")] }

/-- The spec's sort scenario rows: Ban with 5 stars, Ant with 10 and
Cat with 1, stored in that order. -/
def rowBan : AppRow := { rowX with id := "b", name := "Ban", stars := 5 }

def rowAnt : AppRow := { rowX with id := "a2", name := "Ant", stars := 10 }

def rowCat : AppRow := { rowX with id := "c", name := "Cat", stars := 1 }

def storeC4 : Store := { apps := [rowBan, rowAnt, rowCat], app_tags := [] }

/-- Two scanned apps with distinct star counts, listed descending. -/
def appA : App :=
  { Name := "A", Description := "", SourceURL := "", License := "",
    Language := "", Tags := [], Stars := 5, CreatedAt := "", FirstCommit := "",
    LastCommit := "" }

def appB : App := { appA with Name := "B", Stars := 3 }

/-- A fallible store whose main query call fails outright. -/
def fsDown : FStore :=
  { runMainQuery := Except.error "connection refused",
    runTagQuery := fun _ => Except.ok { rows := [], streamErr := none } }

/-- A main-query stream that delivers one decoded row and is then
truncated by a store failure only Err() would report. -/
def truncStream : RowStream (Except String (String × App)) :=
  { rows := [Except.ok ("1", appA)], streamErr := some "connection reset" }

/-- A fallible store whose main query fails mid-iteration, after
delivering one row. -/
def fsTrunc : FStore :=
  { runMainQuery := Except.ok truncStream,
    runTagQuery := fun _ => Except.ok { rows := [], streamErr := none } }

/-! Lemmas about the comparison sort. -/

theorem mem_insertLe {α : Type} (le : α → α → Bool) (a x : α) :
    ∀ l : List α, x ∈ insertLe le a l ↔ x = a ∨ x ∈ l
  | [] => by simp [insertLe]
  | b :: l => by
    simp only [insertLe]
    split
    · simp [List.mem_cons]
    · simp only [List.mem_cons, mem_insertLe le a x l]
      tauto

theorem perm_insertLe {α : Type} (le : α → α → Bool) (a : α) :
    ∀ l : List α, (insertLe le a l).Perm (a :: l)
  | [] => List.Perm.refl _
  | b :: l => by
    simp only [insertLe]
    split
    · exact List.Perm.refl _
    · exact ((perm_insertLe le a l).cons b).trans (List.Perm.swap a b l)

theorem perm_sortLe {α : Type} (le : α → α → Bool) :
    ∀ l : List α, (sortLe le l).Perm l
  | [] => List.Perm.refl _
  | a :: l => (perm_insertLe le a (sortLe le l)).trans ((perm_sortLe le l).cons a)

theorem pairwise_insertLe {α : Type} (le : α → α → Bool)
    (trans : ∀ x y z, le x y = true → le y z = true → le x z = true)
    (total : ∀ x y, le x y = true ∨ le y x = true) (a : α) :
    ∀ l : List α, l.Pairwise (fun x y => le x y = true) →
      (insertLe le a l).Pairwise (fun x y => le x y = true)
  | [], _ => by simp [insertLe]
  | b :: l, h => by
    rw [List.pairwise_cons] at h
    obtain ⟨hb, hl⟩ := h
    simp only [insertLe]
    split
    case isTrue hab =>
      refine List.Pairwise.cons ?_ (List.Pairwise.cons hb hl)
      intro x hx
      rcases List.mem_cons.mp hx with rfl | hx
      · exact hab
      · exact trans a b x hab (hb x hx)
    case isFalse hab =>
      refine List.Pairwise.cons ?_ (pairwise_insertLe le trans total a l hl)
      intro x hx
      rcases (mem_insertLe le a x l).mp hx with rfl | hx
      · rcases total x b with hxb | hbx
        · exact absurd hxb hab
        · exact hbx
      · exact hb x hx

theorem pairwise_sortLe {α : Type} (le : α → α → Bool)
    (trans : ∀ x y z, le x y = true → le y z = true → le x z = true)
    (total : ∀ x y, le x y = true ∨ le y x = true) :
    ∀ l : List α, (sortLe le l).Pairwise (fun x y => le x y = true)
  | [] => List.Pairwise.nil
  | a :: l => pairwise_insertLe le trans total a _ (pairwise_sortLe le trans total l)

theorem sortLe_of_pairwise {α : Type} (le : α → α → Bool) :
    ∀ l : List α, l.Pairwise (fun x y => le x y = true) → sortLe le l = l
  | [], _ => rfl
  | a :: l, h => by
    rw [List.pairwise_cons] at h
    obtain ⟨ha, hl⟩ := h
    simp only [sortLe, sortLe_of_pairwise le l hl]
    cases l with
    | nil => rfl
    | cons b l2 => simp only [insertLe, if_pos (ha b (List.mem_cons_self b l2))]

/-! Lemmas about the sort.Slice comparator. -/

theorem goLess_asymm (p : String) (a b : App) (h : goLess p a b = true) :
    goLess p b a = false := by
  unfold goLess at h ⊢
  split_ifs at h ⊢ <;>
    simp only [decide_eq_true_eq, decide_eq_false_iff_not] at h ⊢ <;>
    exact lt_asymm h

theorem goLessLe_total (p : String) (a b : App) :
    (! goLess p b a) = true ∨ (! goLess p a b) = true := by
  by_cases h : goLess p b a = true
  · right
    simp [goLess_asymm p b a h]
  · left
    rw [Bool.not_eq_true] at h
    simp [h]

theorem goLessLe_trans (p : String) (a b c : App)
    (h1 : (! goLess p b a) = true) (h2 : (! goLess p c b) = true) :
    (! goLess p c a) = true := by
  simp only [Bool.not_eq_true'] at h1 h2 ⊢
  unfold goLess at h1 h2 ⊢
  split_ifs at h1 h2 ⊢ <;>
    simp only [decide_eq_false_iff_not, not_lt] at h1 h2 ⊢ <;>
    first
      | exact le_trans h2 h1
      | exact le_trans h1 h2

theorem sortApps_pairwise (p : String) (l : List App) :
    (sortApps p l).Pairwise (fun a b => goLess p b a = false) := by
  have h := pairwise_sortLe (fun a b : App => ! goLess p b a)
    (fun x y z hx hy => goLessLe_trans p x y z hx hy)
    (fun x y => goLessLe_total p x y) l
  exact h.imp (fun hxy => by simpa using hxy)

theorem goLess_default (p : String) (h1 : p ≠ "stars") (h2 : p ≠ "activity")
    (h3 : p ≠ "recently_added") (h4 : p ≠ "age_asc") (h5 : p ≠ "age_desc") :
    goLess p = goLess "alphabetical" := by
  funext a b
  unfold goLess
  rw [if_neg h1, if_neg h2, if_neg h3, if_neg h4, if_neg h5,
    if_neg (by decide : ¬("alphabetical" = "stars")),
    if_neg (by decide : ¬("alphabetical" = "activity")),
    if_neg (by decide : ¬("alphabetical" = "recently_added")),
    if_neg (by decide : ¬("alphabetical" = "age_asc")),
    if_neg (by decide : ¬("alphabetical" = "age_desc"))]

/-! Lemmas about LIKE pattern matching. -/

theorem like_percent (p : List Char) (s : List Char) :
    like ('%' :: p) s = true ↔ ∃ t, t <:+ s ∧ like p t = true := by
  have h : like ('%' :: p) s = s.tails.any (fun t => like p t) := by
    rw [like.eq_def]
    simp
  rw [h, List.any_eq_true]
  constructor
  · rintro ⟨t, ht, hl⟩
    exact ⟨t, (List.mem_tails t s).mp ht, hl⟩
  · rintro ⟨t, ht, hl⟩
    exact ⟨t, (List.mem_tails t s).mpr ht, hl⟩

theorem like_percent_nil (s : List Char) : like ['%'] s = true := by
  rw [show (['%'] : List Char) = '%' :: [] from rfl, like_percent]
  exact ⟨[], List.nil_suffix, rfl⟩

theorem like_plain_append (k : List Char) (hk : ∀ c ∈ k, PlainChar c) :
    ∀ s : List Char, (like (k ++ ['%']) s = true ↔ k <+: s) := by
  induction k with
  | nil =>
    intro s
    simp [like_percent_nil s, List.nil_prefix]
  | cons c k ih =>
    intro s
    obtain ⟨hc1, hc2, hc3⟩ := hk c (List.mem_cons_self c k)
    have hk2 : ∀ x ∈ k, PlainChar x := fun x hx => hk x (List.mem_cons_of_mem c hx)
    cases s with
    | nil =>
      rw [List.cons_append, like.eq_def]
      simp only [if_neg hc1, if_neg hc3, if_neg hc2]
      simp
    | cons d s2 =>
      rw [List.cons_append, like.eq_def]
      simp only [if_neg hc1, if_neg hc3, if_neg hc2]
      rw [Bool.and_eq_true, beq_iff_eq, ih hk2 s2, List.cons_prefix_cons]

theorem like_wrapped_iff (k s : List Char) (hk : ∀ c ∈ k, PlainChar c) :
    like ('%' :: (k ++ ['%'])) s = true ↔ k <:+: s := by
  rw [like_percent]
  constructor
  · rintro ⟨t, hts, hlt⟩
    exact List.infix_iff_prefix_suffix.mpr ⟨t, (like_plain_append k hk t).mp hlt, hts⟩
  · intro h
    obtain ⟨t, hkt, hts⟩ := List.infix_iff_prefix_suffix.mp h
    exact ⟨t, hts, (like_plain_append k hk t).mpr hkt⟩

/-! Lemmas about Char.toLower. -/

theorem toLower_cases (c : Char) :
    c.toLower = c ∨ (97 ≤ c.toLower.toNat ∧ c.toLower.toNat ≤ 122) := by
  have hdef : c.toLower =
      if c.toNat ≥ 65 ∧ c.toNat ≤ 90 then Char.ofNat (c.toNat + 32) else c := rfl
  rw [hdef]
  by_cases h : c.toNat ≥ 65 ∧ c.toNat ≤ 90
  · rw [if_pos h]
    right
    obtain ⟨h1, h2⟩ := h
    generalize c.toNat = n at h1 h2
    interval_cases n <;> exact ⟨by decide, by decide⟩
  · rw [if_neg h]
    left
    rfl

theorem toLower_of_ge (x : Char) (h : 97 ≤ x.toNat) : x.toLower = x := by
  have hdef : x.toLower =
      if x.toNat ≥ 65 ∧ x.toNat ≤ 90 then Char.ofNat (x.toNat + 32) else x := rfl
  rw [hdef, if_neg]
  omega

theorem toLower_ne_low (c d : Char) (hd : d.toNat < 97) (h : c ≠ d) :
    c.toLower ≠ d := by
  rcases toLower_cases c with hc | ⟨h1, h2⟩
  · rw [hc]
    exact h
  · intro he
    rw [he] at h1
    omega

theorem toLower_idem (c : Char) : c.toLower.toLower = c.toLower := by
  rcases toLower_cases c with hc | ⟨h1, h2⟩
  · rw [hc]
    exact hc
  · exact toLower_of_ge _ h1

/-! Lemmas about GenerateHandle. -/

theorem camelStep_eq_self : ∀ (l : List Char), camelStep l = l
  | [] => rfl
  | [c] => rfl
  | c1 :: c2 :: rest => by
    simp only [camelStep]
    split
    · simp [camelStep_eq_self rest]
    · simp [camelStep_eq_self (c2 :: rest)]

theorem replaceChar_eq_self {old new : Char} {l : List Char}
    (h : ∀ c ∈ l, c ≠ old) : replaceChar old new l = l := by
  unfold replaceChar
  rw [List.map_congr_left (fun c hc => if_neg (h c hc)), List.map_id']

theorem GenerateHandle_chars (s : String) :
    ∀ c ∈ (GenerateHandle s).data, c ≠ '.' ∧ c ≠ ' ' ∧ c ≠ '_' ∧ c.toLower = c := by
  intro c hc
  simp only [GenerateHandle, camelStep_eq_self] at hc
  rw [List.mem_map] at hc
  obtain ⟨e3, he3, rfl⟩ := hc
  simp only [replaceChar, List.map_map, List.mem_map, Function.comp] at he3
  obtain ⟨x, hx, rfl⟩ := he3
  have hplain : ∀ d : Char,
      (if (if (if d = '.' then '-' else d) = ' ' then '-'
            else if d = '.' then '-' else d) = '_' then '-'
        else if (if d = '.' then '-' else d) = ' ' then '-'
            else if d = '.' then '-' else d) ≠ '.' ∧
      (if (if (if d = '.' then '-' else d) = ' ' then '-'
            else if d = '.' then '-' else d) = '_' then '-'
        else if (if d = '.' then '-' else d) = ' ' then '-'
            else if d = '.' then '-' else d) ≠ ' ' ∧
      (if (if (if d = '.' then '-' else d) = ' ' then '-'
            else if d = '.' then '-' else d) = '_' then '-'
        else if (if d = '.' then '-' else d) = ' ' then '-'
            else if d = '.' then '-' else d) ≠ '_' := by
    intro d
    by_cases h1 : d = '.' <;> by_cases h2 : d = ' ' <;> by_cases h3 : d = '_' <;>
      simp [h1, h2, h3]
  obtain ⟨hp1, hp2, hp3⟩ := hplain x
  refine ⟨toLower_ne_low _ '.' (by decide) hp1,
    toLower_ne_low _ ' ' (by decide) hp2,
    toLower_ne_low _ '_' (by decide) hp3, toLower_idem _⟩

/-! Lemmas about the tag condition's distinct-count test. -/

theorem mem_tagsFor {st : Store} {appId t : String} :
    t ∈ tagsFor st appId ↔ ∃ p ∈ st.app_tags, p.1 = appId ∧ p.2 = t := by
  simp only [tagsFor, List.mem_map, List.mem_filter, beq_iff_eq]
  constructor
  · rintro ⟨p, ⟨hp, hid⟩, rfl⟩
    exact ⟨p, hp, hid, rfl⟩
  · rintro ⟨p, hp, hid, rfl⟩
    exact ⟨p, ⟨hp, hid⟩, rfl⟩

theorem mem_tagMatch_list {st : Store} {req : List String} {r : AppRow} {t : String} :
    (t ∈ (st.app_tags.filter (fun p => p.1 == r.id && req.contains p.2)).map
        (fun p => p.2)) ↔ (t ∈ tagsFor st r.id ∧ t ∈ req) := by
  simp only [List.mem_map, List.mem_filter, Bool.and_eq_true, beq_iff_eq,
    List.contains_iff_exists_mem_beq]
  constructor
  · rintro ⟨p, ⟨hp, hid, q, hq, hbq⟩, rfl⟩
    exact ⟨mem_tagsFor.mpr ⟨p, hp, hid, rfl⟩, hbq ▸ hq⟩
  · rintro ⟨ht, hreq⟩
    obtain ⟨p, hp, hid, hpt⟩ := mem_tagsFor.mp ht
    exact ⟨p, ⟨hp, hid, t, hreq, hpt⟩, hpt⟩

theorem dedup_length_eq_iff (L req : List String) (hnd : req.Nodup)
    (hL : ∀ x ∈ L, x ∈ req) :
    L.dedup.length = req.length ↔ ∀ t ∈ req, t ∈ L := by
  have h1 : L.dedup.length = L.toFinset.card := (List.card_toFinset L).symm
  have hsub : L.toFinset ⊆ req.toFinset := by
    intro x hx
    rw [List.mem_toFinset] at hx ⊢
    exact hL x hx
  have h2 : req.toFinset.card = req.length := List.toFinset_card_of_nodup hnd
  constructor
  · intro h
    have heq : L.toFinset = req.toFinset :=
      Finset.eq_of_subset_of_card_le hsub (by omega)
    intro t ht
    have ht2 : t ∈ L.toFinset := heq ▸ List.mem_toFinset.mpr ht
    exact List.mem_toFinset.mp ht2
  · intro h
    have hsub2 : req.toFinset ⊆ L.toFinset := by
      intro x hx
      rw [List.mem_toFinset] at hx ⊢
      exact h x hx
    have heq : L.toFinset = req.toFinset := Finset.Subset.antisymm hsub hsub2
    rw [h1, heq, h2]

theorem dedup_length_lt (L req : List String) (h0 : "" ∈ req)
    (hL : ∀ x ∈ L, x ∈ req ∧ x ≠ "") :
    L.dedup.length < req.length := by
  have h1 : L.dedup.length = L.toFinset.card := (List.card_toFinset L).symm
  have hsub : L.toFinset ⊆ req.toFinset.erase "" := by
    intro x hx
    rw [List.mem_toFinset] at hx
    obtain ⟨hx1, hx2⟩ := hL x hx
    exact Finset.mem_erase.mpr ⟨hx2, List.mem_toFinset.mpr hx1⟩
  have h2 := Finset.card_le_card hsub
  have h3 : (req.toFinset.erase "").card = req.toFinset.card - 1 :=
    Finset.card_erase_of_mem (List.mem_toFinset.mpr h0)
  have h4 : 0 < req.toFinset.card :=
    Finset.card_pos.mpr ⟨"", List.mem_toFinset.mpr h0⟩
  have h5 : req.toFinset.card ≤ req.length := List.toFinset_card_le req
  omega

theorem tagMatch_eq_superset (st : Store) (req : List String) (r : AppRow)
    (hnd : req.Nodup) : tagMatch st req r = specTagSuperset st req r := by
  rw [Bool.eq_iff_iff]
  unfold tagMatch specTagSuperset
  rw [beq_iff_eq, List.all_eq_true]
  rw [dedup_length_eq_iff _ req hnd (fun x hx => (mem_tagMatch_list.mp hx).2)]
  constructor
  · intro h t ht
    have := (mem_tagMatch_list.mp (h t ht)).1
    rw [List.contains_iff_exists_mem_beq]
    exact ⟨t, this, by rw [beq_iff_eq]⟩
  · intro h t ht
    refine mem_tagMatch_list.mpr ⟨?_, ht⟩
    have := h t ht
    rw [List.contains_iff_exists_mem_beq] at this
    obtain ⟨q, hq, hbq⟩ := this
    rw [beq_iff_eq] at hbq
    exact hbq ▸ hq

theorem tagMatch_false_of_empty_tag (st : Store) (req : List String) (r : AppRow)
    (h0 : "" ∈ req) (h3 : ∀ p ∈ st.app_tags, p.2 ≠ "") :
    tagMatch st req r = false := by
  unfold tagMatch
  rw [beq_eq_false_iff_ne]
  have hlt := dedup_length_lt
    ((st.app_tags.filter (fun p => p.1 == r.id && req.contains p.2)).map (fun p => p.2))
    req h0 ?_
  · omega
  · intro x hx
    obtain ⟨hx1, hx2⟩ := mem_tagMatch_list.mp hx
    refine ⟨hx2, ?_⟩
    obtain ⟨p, hp, hid, hpt⟩ := mem_tagsFor.mp hx1
    exact hpt ▸ h3 p hp

/-! Lemmas about tag-filter parsing. -/

theorem splitComma_ne_nil : ∀ l : List Char, splitComma l ≠ []
  | [] => by simp [splitComma]
  | c :: rest => by
    simp only [splitComma]
    split
    · simp
    · split <;> simp

theorem parseTags_ne_nil {tf : String} (h : tf ≠ "") : parseTags tf ≠ [] := by
  unfold parseTags
  rw [if_neg h]
  intro hx
  exact splitComma_ne_nil tf.data (List.map_eq_nil_iff.mp hx)

theorem parseTags_isEmpty_false {tf : String} (h : tf ≠ "") :
    (parseTags tf).isEmpty = false := by
  cases hpt : parseTags tf with
  | nil => exact absurd hpt (parseTags_ne_nil h)
  | cons a l => rfl

/-! Lemmas about error propagation in the row-scanning loops. -/

theorem scanTagRows_error {trs : List (Except String String)}
    (h : ∃ tr ∈ trs, ∃ e, tr = Except.error e) :
    ∃ e, scanTagRows trs = Except.error e := by
  induction trs with
  | nil => simp at h
  | cons tr rest ih =>
    obtain ⟨tr2, htr2, e, he⟩ := h
    rcases List.mem_cons.mp htr2 with heq | hmem
    · refine ⟨e, ?_⟩
      rw [show tr = Except.error e from heq ▸ he]
      rfl
    · cases tr with
      | error e2 => exact ⟨e2, rfl⟩
      | ok t =>
        obtain ⟨e3, he3⟩ := ih ⟨tr2, hmem, e, he⟩
        refine ⟨e3, ?_⟩
        show (scanTagRows rest).map (fun ts => t :: ts) = Except.error e3
        rw [he3]
        rfl

theorem scanTagRows_ok {trs : List (Except String String)} {tl : List String}
    (h : scanTagRows trs = Except.ok tl) :
    ∀ tr ∈ trs, ∃ t, tr = Except.ok t := by
  induction trs generalizing tl with
  | nil =>
    intro tr htr
    simp at htr
  | cons tr2 rest ih =>
    intro tr htr
    cases tr2 with
    | error e => simp [scanTagRows] at h
    | ok t =>
      rcases List.mem_cons.mp htr with heq | hmem
      · exact ⟨t, heq⟩
      · cases hrec : scanTagRows rest with
        | error e =>
          rw [scanTagRows, hrec] at h
          simp [Except.map] at h
        | ok tl2 => exact ih hrec tr hmem

theorem buildApps_error (fs : FStore) (rows : List (Except String (String × App)))
    (h : ∃ row ∈ rows, rowFailure fs row) :
    ∃ e, buildApps fs rows = Except.error e := by
  induction rows with
  | nil => simp at h
  | cons row rest ih =>
    cases row with
    | error e => exact ⟨e, rfl⟩
    | ok pr =>
      obtain ⟨appId, a⟩ := pr
      cases htq : fs.runTagQuery appId with
      | error e => exact ⟨e, by simp [buildApps, htq]⟩
      | ok trs =>
        cases hst : scanTagRows trs.rows with
        | error e => exact ⟨e, by simp [buildApps, htq, hst]⟩
        | ok tl =>
          have hrest : ∃ row ∈ rest, rowFailure fs row := by
            obtain ⟨row2, hmem, hfail⟩ := h
            rcases List.mem_cons.mp hmem with heq | hmem2
            · exfalso
              subst heq
              rcases hfail with ⟨e, he⟩ | ⟨appId2, a2, hok, hbad⟩
              · exact Except.noConfusion he
              · obtain ⟨h1, h2⟩ := Prod.mk.injEq .. ▸ Except.ok.inj hok
                subst h1
                rcases hbad with ⟨e, he⟩ | ⟨trs2, htrs2, tr, hmem3, e, he⟩
                · rw [htq] at he
                  exact Except.noConfusion he
                · rw [htq] at htrs2
                  obtain rfl := Except.ok.inj htrs2
                  obtain ⟨t, ht⟩ := scanTagRows_ok hst tr hmem3
                  rw [ht] at he
                  exact Except.noConfusion he
            · exact ⟨row2, hmem2, hfail⟩
          obtain ⟨e, he⟩ := ih hrest
          exact ⟨e, by simp [buildApps, htq, hst, he]⟩

/-! Equivalence of the ILIKE predicate with the substring reading for
wildcard-free keywords. -/

theorem ilikeSub_eq_containsCI (kw s : String) (h : ∀ c ∈ kw.data, PlainChar c) :
    ilikeSub kw s = containsCI kw s := by
  have hlow : ∀ c ∈ kw.data.map Char.toLower, PlainChar c := by
    intro c hc
    rw [List.mem_map] at hc
    obtain ⟨d, hd, rfl⟩ := hc
    obtain ⟨p1, p2, p3⟩ := h d hd
    exact ⟨toLower_ne_low d '%' (by decide) p1,
      toLower_ne_low d '_' (by decide) p2,
      toLower_ne_low d '\\' (by decide) p3⟩
  rw [Bool.eq_iff_iff]
  unfold ilikeSub containsCI
  rw [decide_eq_true_eq]
  exact like_wrapped_iff _ _ hlow

theorem any_tags_eq (st : Store) (f : String → Bool) (appId : String) :
    st.app_tags.any (fun p => p.1 == appId && f p.2) = (tagsFor st appId).any f := by
  rw [Bool.eq_iff_iff, List.any_eq_true, List.any_eq_true]
  constructor
  · rintro ⟨p, hp, hcond⟩
    rw [Bool.and_eq_true, beq_iff_eq] at hcond
    exact ⟨p.2, mem_tagsFor.mpr ⟨p, hp, hcond.1, rfl⟩, hcond.2⟩
  · rintro ⟨t, ht, hf⟩
    obtain ⟨p, hp, hid, hpt⟩ := mem_tagsFor.mp ht
    refine ⟨p, hp, ?_⟩
    rw [Bool.and_eq_true, beq_iff_eq]
    exact ⟨hid, hpt ▸ hf⟩

theorem kwMatch_eq_spec (st : Store) (kw : String) (r : AppRow)
    (h : ∀ c ∈ kw.data, PlainChar c) :
    kwMatch st kw r = specKwMatch st kw r := by
  unfold kwMatch specKwMatch
  rw [ilikeSub_eq_containsCI kw r.name h, ilikeSub_eq_containsCI kw r.description h,
    ilikeSub_eq_containsCI kw r.maintainer h, ilikeSub_eq_containsCI kw r.license h,
    ilikeSub_eq_containsCI kw r.country h, ilikeSub_eq_containsCI kw r.language h,
    any_tags_eq st (fun t => ilikeSub kw t) r.id,
    show (fun t => ilikeSub kw t) = (fun t => containsCI kw t) from
      funext (fun t => ilikeSub_eq_containsCI kw t h)]

/-! The claims. -/

/-- C1, counterexample: the code's HAVING clause compares the number of
distinct matching tags against the number of comma-separated segments
(duplicates counted), not against the number of distinct requested
tags.  For tagFilter "x,x" the entry carrying tag "x" — whose tag set
is a superset of the distinct requested set and which the claim
therefore says is returned — is excluded, so "x,x" does not filter
like "x". -/
theorem C1_tagFilter_dup_counterexample :
    parseTags "x,x" = ["x", "x"] ∧
    tagsFor storeX "1" = ["x"] ∧
    specTagSuperset storeX (parseTags "x,x") rowX = true ∧
    handleQuery storeX "" "x,x" "alphabetical" = [] := by
  decide

/-- C1, amended: for every non-empty tagFilter whose trimmed segments
are pairwise distinct, the returned entries are exactly those whose
tag set is a superset of the requested tag set (the distinct-count
test then coincides with the superset test). -/
theorem C1_tagFilter_superset (st : Store) (tf sp : String) (h1 : tf ≠ "")
    (h2 : (parseTags tf).Nodup) :
    handleQuery st "" tf sp =
      sortApps sp
        ((st.apps.filter (specTagSuperset st (parseTags tf))).map (toApp st)) := by
  unfold handleQuery
  refine congrArg (sortApps sp) (congrArg (List.map (toApp st)) ?_)
  apply List.filter_congr
  intro r hr
  unfold rowPasses
  rw [tagMatch_eq_superset st _ r h2, parseTags_isEmpty_false h1]
  simp

/-- Witness for C1's amended theorem at tagFilter "x, y" over a store
whose single entry carries both tags. -/
theorem C1_tagFilter_superset_witness :
    (("x, y" : String) ≠ "" ∧ (parseTags "x, y").Nodup) ∧
    handleQuery storeY "" "x, y" "stars" =
      sortApps "stars"
        ((storeY.apps.filter (specTagSuperset storeY (parseTags "x, y"))).map
          (toApp storeY)) :=
  ⟨⟨by decide, by decide⟩,
    C1_tagFilter_superset storeY "x, y" "stars" (by decide) (by decide)⟩

/-- C2, counterexample: "_" is an ILIKE wildcard matching any single
character, so the keyword "_" returns the entry named "a" although "_"
is not a case-insensitive substring of any of its searchable fields or
tags — the result set is not the substring-match set. -/
theorem C2_keyword_wildcard_counterexample :
    (handleQuery storeU "_" "" "alphabetical").length = 1 ∧
    storeU.apps.filter (specKwMatch storeU "_") = [] := by
  decide

/-- C2, amended: for every non-empty keyword containing none of the
LIKE metacharacters `%`, `_` and `\`, the returned entries are exactly
those in which the keyword appears as a case-insensitive substring of
the name, description, maintainer, license, country or language, or of
one of the entry's tags. -/
theorem C2_keyword_substring (st : Store) (kw sp : String) (h1 : kw ≠ "")
    (h2 : ∀ c ∈ kw.data, PlainChar c) :
    handleQuery st kw "" sp =
      sortApps sp ((st.apps.filter (specKwMatch st kw)).map (toApp st)) := by
  unfold handleQuery
  refine congrArg (sortApps sp) (congrArg (List.map (toApp st)) ?_)
  apply List.filter_congr
  intro r hr
  unfold rowPasses
  rw [show parseTags "" = [] from rfl,
    show (kw == "") = false from beq_eq_false_iff_ne.mpr h1]
  simp [kwMatch_eq_spec st kw r h2]

/-- Witness for C2's amended theorem at keyword "x" over a store whose
single entry matches through its tag. -/
theorem C2_keyword_substring_witness :
    (("x" : String) ≠ "" ∧ ∀ c ∈ ("x" : String).data, PlainChar c) ∧
    handleQuery storeX "x" "" "stars" =
      sortApps "stars"
        ((storeX.apps.filter (specKwMatch storeX "x")).map (toApp storeX)) :=
  ⟨⟨by decide, by decide⟩,
    C2_keyword_substring storeX "x" "stars" (by decide) (by decide)⟩

/-- C3: with both filters non-empty a row is selected exactly when it
is selected by the keyword filter alone and by the tag filter alone
(the WHERE clause is their conjunction), and with both filters empty
every stored row is selected. -/
theorem C3_filters_conjunction (st : Store) (kw tf : String)
    (h1 : kw ≠ "") (h2 : tf ≠ "") :
    (∀ r : AppRow,
      r ∈ st.apps.filter (rowPasses st kw (parseTags tf)) ↔
        (r ∈ st.apps.filter (rowPasses st kw (parseTags "")) ∧
          r ∈ st.apps.filter (rowPasses st "" (parseTags tf)))) ∧
    st.apps.filter (rowPasses st "" (parseTags "")) = st.apps := by
  have hkw : (kw == "") = false := beq_eq_false_iff_ne.mpr h1
  have hie : (parseTags tf).isEmpty = false := parseTags_isEmpty_false h2
  have hpt : parseTags "" = [] := rfl
  constructor
  · intro r
    simp only [List.mem_filter, rowPasses, hkw, hie, hpt, List.isEmpty_nil,
      beq_self_eq_true, Bool.false_or, Bool.or_true, Bool.true_or, Bool.and_true,
      Bool.true_and, Bool.and_eq_true]
    tauto
  · rw [List.filter_eq_self]
    intro r hr
    simp [rowPasses, hpt]

/-- Witness for C3 at keyword "x" and tagFilter "x". -/
theorem C3_filters_conjunction_witness :
    (("x" : String) ≠ "" ∧ ("x" : String) ≠ "") ∧
    ((∀ r : AppRow,
      r ∈ storeX.apps.filter (rowPasses storeX "x" (parseTags "x")) ↔
        (r ∈ storeX.apps.filter (rowPasses storeX "x" (parseTags "")) ∧
          r ∈ storeX.apps.filter (rowPasses storeX "" (parseTags "x")))) ∧
    storeX.apps.filter (rowPasses storeX "" (parseTags "")) = storeX.apps) :=
  ⟨⟨by decide, by decide⟩,
    C3_filters_conjunction storeX "x" "x" (by decide) (by decide)⟩

/-- C4: with sortKey "stars" the output is ordered by star count
descending, and on the scenario store [Ban 5, Ant 10, Cat 1] with no
filters the output order is [Ant, Ban, Cat]. -/
theorem C4_stars_sort_desc :
    (∀ (st : Store) (kw tf : String),
      (handleQuery st kw tf "stars").Pairwise (fun a b => b.Stars ≤ a.Stars)) ∧
    (handleQuery storeC4 "" "" "stars").map (fun a => a.Name) =
      ["Ant", "Ban", "Cat"] := by
  constructor
  · intro st kw tf
    unfold handleQuery
    refine (sortApps_pairwise "stars" _).imp ?_
    intro a b hab
    unfold goLess at hab
    rw [if_pos rfl, decide_eq_false_iff_not] at hab
    exact not_lt.mp hab
  · decide

/-- C5: every sortKey other than the five listed ones (in particular
the empty key sent when the parameter is absent) produces output
identical to sortKey "alphabetical", which is ordered by name
ascending. -/
theorem C5_default_sort_alphabetical (key : String)
    (h : key ∉ (["stars", "activity", "recently_added", "age_asc",
      "age_desc"] : List String)) (st : Store) (kw tf : String) :
    handleQuery st kw tf key = handleQuery st kw tf "alphabetical" ∧
    (handleQuery st kw tf key).Pairwise (fun a b => a.Name ≤ b.Name) := by
  have h' : key ≠ "stars" ∧ key ≠ "activity" ∧ key ≠ "recently_added" ∧
      key ≠ "age_asc" ∧ key ≠ "age_desc" := by
    simp only [List.mem_cons, List.not_mem_nil, or_false, not_or] at h
    exact h
  obtain ⟨h1, h2, h3, h4, h5⟩ := h'
  have hg : goLess key = goLess "alphabetical" := goLess_default key h1 h2 h3 h4 h5
  have hs : ∀ l, sortApps key l = sortApps "alphabetical" l := by
    intro l
    unfold sortApps
    rw [hg]
  constructor
  · unfold handleQuery
    rw [hs]
  · unfold handleQuery
    rw [hs]
    refine (sortApps_pairwise "alphabetical" _).imp ?_
    intro a b hab
    unfold goLess at hab
    rw [if_neg (by decide : ¬("alphabetical" = "stars")),
      if_neg (by decide : ¬("alphabetical" = "activity")),
      if_neg (by decide : ¬("alphabetical" = "recently_added")),
      if_neg (by decide : ¬("alphabetical" = "age_asc")),
      if_neg (by decide : ¬("alphabetical" = "age_desc")),
      decide_eq_false_iff_not] at hab
    exact not_lt.mp hab

/-- Witness for C5 at the absent (empty) sort key over the scenario
store. -/
theorem C5_default_sort_alphabetical_witness :
    (("" : String) ∉ (["stars", "activity", "recently_added", "age_asc",
      "age_desc"] : List String)) ∧
    (handleQuery storeC4 "" "" "" = handleQuery storeC4 "" "" "alphabetical" ∧
      (handleQuery storeC4 "" "" "").Pairwise (fun a b => a.Name ≤ b.Name)) :=
  ⟨by decide, C5_default_sort_alphabetical "" (by decide) storeC4 "" ""⟩

/-- C6, counterexample: src/main.go never calls rows.Err(), so a
store failure that truncates the row stream mid-iteration makes
rows.Next() return false as at a normal end of the result set, and
the handler renders a success page carrying the partially delivered
entries.  Here the store fails after delivering one row, yet the
outcome is a page with that entry — not a query-failed outcome with
no entries. -/
theorem C6_truncated_stream_counterexample :
    fsTrunc.runMainQuery = Except.ok truncStream ∧
    truncStream.streamErr = some "connection reset" ∧
    handleFallible fsTrunc "stars" = Response.page [appA] := by
  refine ⟨rfl, rfl, ?_⟩
  decide

/-- C6, amended: whenever a failure is observed by the handler — the
main query call fails, or a delivered row fails to decode (its Scan
fails, its tag query call fails, or one of its delivered tag rows
fails to scan) — the handler produces the single query-failed
outcome, which carries only the error text and never a page with
entries; the handler is a total function, so no failure terminates
the process.  (A store failure that merely truncates a row stream is
not observed, because no Err() method is ever checked.) -/
theorem C6_observed_failure_propagates (fs : FStore) (sp : String)
    (h : (∃ e, fs.runMainQuery = Except.error e) ∨
      (∃ stream, fs.runMainQuery = Except.ok stream ∧
        ∃ row ∈ stream.rows, rowFailure fs row)) :
    (∃ msg, handleFallible fs sp = Response.queryFailed msg) ∧
    ∀ l, handleFallible fs sp ≠ Response.page l := by
  have hmain : ∃ msg, handleFallible fs sp = Response.queryFailed msg := by
    rcases h with ⟨e, he⟩ | ⟨stream, hstream, hfail⟩
    · exact ⟨e, by simp [handleFallible, he]⟩
    · obtain ⟨e, he⟩ := buildApps_error fs stream.rows hfail
      exact ⟨e, by simp [handleFallible, hstream, he]⟩
  refine ⟨hmain, ?_⟩
  obtain ⟨msg, hmsg⟩ := hmain
  intro l hl
  rw [hmsg] at hl
  exact Response.noConfusion hl

/-- Witness for C6's amended theorem at a store whose main query call
fails. -/
theorem C6_observed_failure_propagates_witness :
    ((∃ e, fsDown.runMainQuery = Except.error e) ∨
      (∃ stream, fsDown.runMainQuery = Except.ok stream ∧
        ∃ row ∈ stream.rows, rowFailure fsDown row)) ∧
    ((∃ msg, handleFallible fsDown "stars" = Response.queryFailed msg) ∧
      ∀ l, handleFallible fsDown "stars" ≠ Response.page l) :=
  ⟨Or.inl ⟨"connection refused", rfl⟩,
    C6_observed_failure_propagates fsDown "stars"
      (Or.inl ⟨"connection refused", rfl⟩)⟩

/-- C7: for a sequence with pairwise distinct star counts that is
already ordered by star count descending, applying the "stars" sort
returns the sequence unchanged. -/
theorem C7_stars_sort_idempotent (l : List App)
    (h1 : l.Pairwise (fun a b => a.Stars ≠ b.Stars))
    (h2 : l.Pairwise (fun a b => b.Stars ≤ a.Stars)) :
    sortApps "stars" l = l := by
  unfold sortApps
  apply sortLe_of_pairwise
  refine h2.imp ?_
  intro a b hab
  show (! goLess "stars" b a) = true
  unfold goLess
  rw [if_pos rfl, Bool.not_eq_true', decide_eq_false_iff_not]
  exact not_lt.mpr hab

/-- Witness for C7 on two apps with stars 5 and 3. -/
theorem C7_stars_sort_idempotent_witness :
    ([appA, appB].Pairwise (fun a b => a.Stars ≠ b.Stars) ∧
      [appA, appB].Pairwise (fun a b => b.Stars ≤ a.Stars)) ∧
    sortApps "stars" [appA, appB] = [appA, appB] :=
  ⟨⟨by decide, by decide⟩,
    C7_stars_sort_idempotent [appA, appB] (by decide) (by decide)⟩

/-- C8: both statement texts the handler sends to the store — the
assembled main query, for every combination of filter parameters, and
the per-entry tag query — begin with SELECT, so the service only ever
reads the entry and tag tables. -/
theorem C8_queries_are_selects :
    (∀ kw tf : String, "SELECT".data <+: (mainQueryText kw tf).data) ∧
    "SELECT".data <+: tagQueryText.data := by
  constructor
  · intro kw tf
    have h : (mainQueryText kw tf).data =
        "SELECT".data ++
          (" id, name, description, source_url, license, language, stars, created_at, first_commit, last_commit FROM apps".data ++
            (whereSQL kw tf).data) := by
      show (baseQuery ++ whereSQL kw tf).data = _
      rw [String.data_append,
        show baseQuery.data = "SELECT".data ++
          " id, name, description, source_url, license, language, stars, created_at, first_commit, last_commit FROM apps".data
          from by decide,
        List.append_assoc]
    rw [h]
    exact List.prefix_append _ _
  · exact ⟨" tag FROM app_tags WHERE app_id = $1".data, by decide⟩

/-- C9: a tagFilter with an empty-after-trimming segment (such as ","
or "x,") still counts that segment toward the required match count,
so over any store whose tags are all non-empty the result is empty
rather than the filter being ignored. -/
theorem C9_empty_segment_excludes_all (st : Store) (kw tf sp : String)
    (h1 : tf ≠ "") (h2 : "" ∈ parseTags tf)
    (h3 : ∀ p ∈ st.app_tags, p.2 ≠ "") :
    handleQuery st kw tf sp = [] := by
  unfold handleQuery
  have hfil : st.apps.filter (rowPasses st kw (parseTags tf)) = [] := by
    rw [List.filter_eq_nil_iff]
    intro r hr
    unfold rowPasses
    rw [tagMatch_false_of_empty_tag st _ r h2 h3, parseTags_isEmpty_false h1]
    simp
  rw [hfil]
  rfl

/-- Witness for C9 at tagFilter "," over the store whose entry carries
the tag "x". -/
theorem C9_empty_segment_excludes_all_witness :
    ((("," : String) ≠ "") ∧ "" ∈ parseTags "," ∧
      ∀ p ∈ storeX.app_tags, p.2 ≠ "") ∧
    handleQuery storeX "q" "," "stars" = [] :=
  ⟨⟨by decide, by decide, by decide⟩,
    C9_empty_segment_excludes_all storeX "q" "," "stars"
      (by decide) (by decide) (by decide)⟩

/-- C10: GenerateHandle is idempotent — its output contains no dot,
space or underscore and only lowercase-stable characters, the
camel-case regex pass rewrites every match to itself, so a second
application changes nothing. -/
theorem C10_GenerateHandle_idem (s : String) :
    GenerateHandle (GenerateHandle s) = GenerateHandle s := by
  have hch := GenerateHandle_chars s
  have h1 : replaceChar '.' '-' (GenerateHandle s).data = (GenerateHandle s).data :=
    replaceChar_eq_self (fun c hc => (hch c hc).1)
  have h2 : replaceChar ' ' '-' (GenerateHandle s).data = (GenerateHandle s).data :=
    replaceChar_eq_self (fun c hc => (hch c hc).2.1)
  have h3 : replaceChar '_' '-' (GenerateHandle s).data = (GenerateHandle s).data :=
    replaceChar_eq_self (fun c hc => (hch c hc).2.2.1)
  have h4 : (GenerateHandle s).data.map Char.toLower = (GenerateHandle s).data := by
    rw [List.map_congr_left (fun c hc => (hch c hc).2.2.2), List.map_id']
  show String.mk ((camelStep (replaceChar '_' '-' (replaceChar ' ' '-'
      (replaceChar '.' '-' (GenerateHandle s).data)))).map Char.toLower) =
    GenerateHandle s
  rw [h1, h2, h3, camelStep_eq_self, h4]
